import Mathlib

/-!
Verification of the Merkator coordinate library (openAIP/merkator).

The JavaScript source is shallowly embedded: JS numbers are modelled as
exact rationals plus a NaN marker (`JsNum`); IEEE-754 doubles are idealised
as exact rational arithmetic, which is faithful for every value arising in
the claims (short decimal literals and sexagesimal conversions).  Strings
are processed as `List Char`; the regular expressions of the source are
embedded as deterministic character-list matchers (the regexes are
anchored and every alternation is delimited by non-digit separators, so
greedy digit-run tokenisation is equivalent to the backtracking match).
-/

/-- A JavaScript number: either NaN or an exact rational. -/
inductive JsNum where
  | nan : JsNum
  | num : ℚ → JsNum
deriving DecidableEq, Repr

/-- JS whitespace (the `\s` class restricted to the ASCII characters that can occur here). -/
def isJsWs (c : Char) : Bool :=
  c = ' ' || c = '\t' || c = '\n' || c = '\r' || c.toNat = 11 || c.toNat = 12

/-- The regex class `[0-9]` (code points 48-57). -/
def isDigitCh (c : Char) : Bool :=
  48 ≤ c.toNat && c.toNat ≤ 57

/-- Numeric value of a decimal digit character. -/
def digitValCh (c : Char) : ℕ := c.toNat - 48

/-- Greedy maximal run of decimal digits, as a regex `\d+` would consume it. -/
def takeDigits : List Char → List Char × List Char
  | [] => ([], [])
  | c :: cs =>
    if isDigitCh c then
      let p := takeDigits cs
      (c :: p.1, p.2)
    else ([], c :: cs)

/-- Value of a digit string read in base 10. -/
def natVal : List Char → ℕ
  | [] => 0
  | c :: r => digitValCh c * 10 ^ r.length + natVal r

/-- Value of a digit string read as a decimal fraction (the part after the dot). -/
def fracVal (ds : List Char) : ℚ := (natVal ds : ℚ) / 10 ^ ds.length

/-- The optional sign `[-+]?` recognised by `parseFloat`. -/
def parseSign (cs : List Char) : Bool × List Char :=
  match cs with
  | c :: r => if c = '-' then (true, r) else if c = '+' then (false, r) else (false, cs)
  | [] => (false, cs)

/--
Model of the JS builtin `parseFloat`: skip leading whitespace, optional sign,
integer digits, optional fraction; trailing garbage is ignored; NaN when no
digits are found.  Exponent forms are not modelled (no call site produces one).
-/
def parseFloatCore (cs : List Char) : JsNum :=
  let sgn := parseSign (cs.dropWhile isJsWs)
  let ipp := takeDigits sgn.2
  match ipp.2 with
  | c :: r =>
    if c = '.' then
      let fpp := takeDigits r
      if ipp.1.isEmpty && fpp.1.isEmpty then .nan
      else .num ((if sgn.1 then -1 else 1) * ((natVal ipp.1 : ℚ) + fracVal fpp.1))
    else if ipp.1.isEmpty then .nan
    else .num ((if sgn.1 then -1 else 1) * (natVal ipp.1 : ℚ))
  | [] =>
    if ipp.1.isEmpty then .nan
    else .num ((if sgn.1 then -1 else 1) * (natVal ipp.1 : ℚ))

/-- `parseFloat` on a Lean string. -/
def parseFloatJs (s : String) : JsNum := parseFloatCore s.toList

/-- JS `+` on numbers (NaN propagates). -/
def jsAdd : JsNum → JsNum → JsNum
  | .num a, .num b => .num (a + b)
  | _, _ => .nan

/-- JS division by the literal 60 (NaN propagates; 60 is nonzero so no infinities arise). -/
def jsDiv60 : JsNum → JsNum
  | .num a => .num (a / 60)
  | .nan => .nan

/--
`parseFloat('-' + y)` of the source: the number `y` is rendered to a string,
prefixed with a minus sign and reparsed.  For a non-negative number this is
exact negation; a negative number would render with its own sign and reparse
as NaN; NaN renders as "NaN" and reparses as NaN.
-/
def jsNegStr : JsNum → JsNum
  | .nan => .nan
  | .num q => if q < 0 then .nan else .num (-q)

/--
`toDecimals(deg, min, sec)` from the source:
`parseFloat(deg) + (parseFloat(min) + parseFloat(sec) / 60) / 60`.
-/
def toDecimals (deg min sec : List Char) : JsNum :=
  jsAdd (parseFloatCore deg) (jsDiv60 (jsAdd (parseFloatCore min) (jsDiv60 (parseFloatCore sec))))

/-- Replace every `,` by a space (`string.replace(/,/g, ' ')`). -/
def replaceCommas (cs : List Char) : List Char :=
  cs.map (fun c => if c = ',' then ' ' else c)

/-- Map each whitespace character to a plain space. -/
def wsToSpace (cs : List Char) : List Char :=
  cs.map (fun c => if isJsWs c then ' ' else c)

/-- Collapse every run of consecutive spaces to a single space. -/
def squeezeSpaces : List Char → List Char
  | [] => []
  | [c] => [c]
  | a :: b :: rest =>
    if a = ' ' && b = ' ' then squeezeSpaces (b :: rest)
    else a :: squeezeSpaces (b :: rest)

/-- Remove leading and trailing spaces (`String.prototype.trim` after whitespace collapsing). -/
def trimSpaces (cs : List Char) : List Char :=
  ((cs.dropWhile (fun c => c = ' ')).reverse.dropWhile (fun c => c = ' ')).reverse

/--
`_cleanseString` of the source: commas become spaces, each whitespace run is
collapsed to a single space (`replace(/\s+/g, ' ')`), and the result is trimmed.
The source returns `false` on a falsy input; callers check for the empty string
before calling, so the embedding is total on character lists.
-/
def cleanse (cs : List Char) : List Char :=
  trimSpaces (squeezeSpaces (wsToSpace (replaceCommas cs)))

/-- The character class `[A-Za-z0-9- \.]` kept by the delimiter-stripping regex. -/
def isKeepChar (c : Char) : Bool :=
  (65 ≤ c.toNat && c.toNat ≤ 90) || (97 ≤ c.toNat && c.toNat ≤ 122) ||
    isDigitCh c || c = '-' || c = ' ' || c = '.'

/-- `replace(/[^A-Za-z0-9- \.]/g, ' ')`: every other character becomes a space. -/
def stripDelims (cs : List Char) : List Char :=
  cs.map (fun c => if isKeepChar c then c else ' ')

/-- The regex class `[:\s?]` separating sexagesimal fields. -/
def isSexaSep (c : Char) : Bool :=
  c = ':' || c = '?' || isJsWs c

/-- Match one digit-run field against a field pattern `valid`. -/
def parseField (valid : List Char → Bool) (cs : List Char) :
    Option (List Char × List Char) :=
  let p := takeDigits cs
  if valid p.1 then some (p.1, p.2) else none

/-- Match one separator from the class `[:\s?]`. -/
def parseSep (cs : List Char) : Option (List Char) :=
  match cs with
  | c :: r => if isSexaSep c then some r else none
  | [] => none

/-- Match one hemisphere letter out of the two-character class `[ab]`. -/
def parseCard (a b : Char) (cs : List Char) : Option (Char × List Char) :=
  match cs with
  | c :: r => if c = a || c = b then some (c, r) else none
  | [] => none

/--
The optional fraction group `(\.\d+)?`: a dot followed by at least one digit.
If the group cannot match (no dot, or a dot without digits) it matches empty
and consumes nothing.
-/
def parseFrac (cs : List Char) : Option (List Char) × List Char :=
  match cs with
  | c :: r =>
    if c = '.' then
      let p := takeDigits r
      if p.1.isEmpty then (none, cs) else (some p.1, p.2)
    else (none, cs)
  | [] => (none, cs)

/-- The optional whitespace `\s?`. -/
def skipOptWs (cs : List Char) : List Char :=
  match cs with
  | c :: r => if isJsWs c then r else cs
  | [] => []

/-- The mandatory whitespace `\s`. -/
def parseWs (cs : List Char) : Option (List Char) :=
  match cs with
  | c :: r => if isJsWs c then some r else none
  | [] => none

/-- The latitude degree alternation `(0?[0-9]|[1-8][0-9]|90)`. -/
def matchesLatDeg : List Char → Bool
  | [c] => isDigitCh c
  | [c1, c2] =>
    (c1 = '0' && isDigitCh c2) ||
    (49 ≤ c1.toNat && c1.toNat ≤ 56 && isDigitCh c2) ||
    (c1 = '9' && c2 = '0')
  | _ => false

/-- The minute/second alternation `(0?[0-9]|[1-5][0-9]|60)`. -/
def matchesMinSec : List Char → Bool
  | [c] => isDigitCh c
  | [c1, c2] =>
    (c1 = '0' && isDigitCh c2) ||
    (49 ≤ c1.toNat && c1.toNat ≤ 53 && isDigitCh c2) ||
    (c1 = '6' && c2 = '0')
  | _ => false

/-- The longitude degree alternation `(0?0?[0-9]|0?[1-9][0-9]|[1-9][0-9]|1[0-7][0-9]|180)`. -/
def matchesLonDeg : List Char → Bool
  | [c] => isDigitCh c
  | [c1, c2] => isDigitCh c1 && isDigitCh c2
  | [c1, c2, c3] =>
    (c1 = '0' && c2 = '0' && isDigitCh c3) ||
    (c1 = '0' && 49 ≤ c2.toNat && c2.toNat ≤ 57 && isDigitCh c3) ||
    (c1 = '1' && 48 ≤ c2.toNat && c2.toNat ≤ 55 && isDigitCh c3) ||
    (c1 = '1' && c2 = '8' && c3 = '0')
  | _ => false

/-- The capture groups extracted by `_parseSexagesimalNotation`. -/
structure SexaFields where
  latDeg : List Char
  latMin : List Char
  latSec : List Char
  latFrac : Option (List Char)
  latCard : Char
  lonDeg : List Char
  lonMin : List Char
  lonSec : List Char
  lonFrac : Option (List Char)
  lonCard : Char
deriving DecidableEq, Repr

/--
The suffixed-hemisphere sexagesimal regex of `_parseSexagesimalNotation`:
`^(latdeg)([:\s?])(minsec)([:\s?])(minsec)(\.\d+)?\s?([NS])\s(londeg)([:\s?])(minsec)([:\s?])(minsec)(\.\d+)?\s?([EW])$`.
-/
def sexaSuffixed (cs : List Char) : Option SexaFields := do
  let (latDeg, r) ← parseField matchesLatDeg cs
  let r ← parseSep r
  let (latMin, r) ← parseField matchesMinSec r
  let r ← parseSep r
  let (latSec, r) ← parseField matchesMinSec r
  let p := parseFrac r
  let r := skipOptWs p.2
  let (latCard, r) ← parseCard 'N' 'S' r
  let r ← parseWs r
  let (lonDeg, r) ← parseField matchesLonDeg r
  let r ← parseSep r
  let (lonMin, r) ← parseField matchesMinSec r
  let r ← parseSep r
  let (lonSec, r) ← parseField matchesMinSec r
  let q := parseFrac r
  let r := skipOptWs q.2
  let (lonCard, r) ← parseCard 'E' 'W' r
  if r = [] then
    some ⟨latDeg, latMin, latSec, p.1, latCard, lonDeg, lonMin, lonSec, q.1, lonCard⟩
  else none

/--
The leading-hemisphere sexagesimal regex of `_parseSexagesimalNotation`:
`^([NS])\s?(latdeg)([:\s?])(minsec)([:\s?])(minsec)(\.\d+)?\s?([EW])\s?(londeg)([:\s?])(minsec)([:\s?])(minsec)(\.\d+)?$`.
-/
def sexaLeading (cs : List Char) : Option SexaFields := do
  let (latCard, r) ← parseCard 'N' 'S' cs
  let r := skipOptWs r
  let (latDeg, r) ← parseField matchesLatDeg r
  let r ← parseSep r
  let (latMin, r) ← parseField matchesMinSec r
  let r ← parseSep r
  let (latSec, r) ← parseField matchesMinSec r
  let p := parseFrac r
  let r := skipOptWs p.2
  let (lonCard, r) ← parseCard 'E' 'W' r
  let r := skipOptWs r
  let (lonDeg, r) ← parseField matchesLonDeg r
  let r ← parseSep r
  let (lonMin, r) ← parseField matchesMinSec r
  let r ← parseSep r
  let (lonSec, r) ← parseField matchesMinSec r
  let q := parseFrac r
  if q.2 = [] then
    some ⟨latDeg, latMin, latSec, p.1, latCard, lonDeg, lonMin, lonSec, q.1, lonCard⟩
  else none

/--
The JS concatenation `sec + frac` of the captured seconds group with the
optional fraction group: when the optional group did not participate in the
match the concatenation produces the literal text `undefined`, which
`parseFloat` ignores as trailing garbage.
-/
def fracRep : Option (List Char) → List Char
  | some ds => '.' :: ds
  | none => "undefined".toList

/--
The conversion step of `_parseSexagesimalNotation`: both groups through
`toDecimals`, then `parseFloat('-' + value)` when the hemisphere letter is
`S` (latitude) or `W` (longitude).  Returns the `[y, x]` = (latitude,
longitude) pair handed to `_setFromDecimalArray`.
-/
def sexaToPair (f : SexaFields) : JsNum × JsNum :=
  let y := toDecimals f.latDeg f.latMin (f.latSec ++ fracRep f.latFrac)
  let x := toDecimals f.lonDeg f.lonMin (f.lonSec ++ fracRep f.lonFrac)
  let y := if f.latCard = 'S' then jsNegStr y else y
  let x := if f.lonCard = 'W' then jsNegStr x else x
  (y, x)

/--
Preprocessing and matching of `_parseSexagesimalNotation`: empty input is
rejected, the string is cleansed, delimiters outside `[A-Za-z0-9- \.]` become
spaces, the string is cleansed again, and the suffixed-hemisphere regex is
tried before the leading-hemisphere one.
-/
def sexaMatch (s : String) : Option SexaFields :=
  if s = "" then none
  else
    let c1 := cleanse s.toList
    let c2 := cleanse (stripDelims c1)
    match sexaSuffixed c2 with
    | some f => some f
    | none => sexaLeading c2

/-- `_parseSexagesimalNotation`: the matched fields converted to a (lat, lon) pair. -/
def parseSexagesimal (s : String) : Option (JsNum × JsNum) :=
  match sexaMatch s with
  | some f => some (sexaToPair f)
  | none => none

/-- A signed decimal group: optional sign, integer digits, optional fraction digits. -/
structure DecGroup where
  sign : Option Char
  intPart : List Char
  fracPart : Option (List Char)
deriving DecidableEq, Repr

/-- One signed number group `[-+]?` digits `(\.\d+)?` as the decimal regex consumes it. -/
def parseNumGroup (cs : List Char) : Option (DecGroup × List Char) :=
  let sp : Option Char × List Char :=
    match cs with
    | c :: r => if c = '-' || c = '+' then (some c, r) else (none, cs)
    | [] => (none, cs)
  let ip := takeDigits sp.2
  if ip.1.isEmpty then none
  else
    let fp := parseFrac ip.2
    some (⟨sp.1, ip.1, fp.1⟩, fp.2)

/-- Is every character of the optional fraction a literal `0` (the `(\.0+)?` group)? -/
def fracAllZero : Option (List Char) → Bool
  | none => true
  | some ds => ds.all (fun c => c = '0')

/-- The latitude body `([0-8]?\d(\.\d+)?|90(\.0+)?)` of the decimal regex. -/
def validLatBody (ip : List Char) (fp : Option (List Char)) : Bool :=
  (match ip with
   | [c] => isDigitCh c
   | [c1, c2] => 48 ≤ c1.toNat && c1.toNat ≤ 56 && isDigitCh c2
   | _ => false) ||
  (ip = ['9', '0'] && fracAllZero fp)

/-- The longitude body `(180(\.0+)?|((1[0-7]\d)|([0-9]?\d))(\.\d+)?)` of the decimal regex. -/
def validLonBody (ip : List Char) (fp : Option (List Char)) : Bool :=
  (match ip with
   | [c] => isDigitCh c
   | [c1, c2] => isDigitCh c1 && isDigitCh c2
   | [c1, c2, c3] => c1 = '1' && 48 ≤ c2.toNat && c2.toNat ≤ 55 && isDigitCh c3
   | _ => false) ||
  (ip = ['1', '8', '0'] && fracAllZero fp)

/-- The separator class `[,\s]` between the two decimal groups. -/
def parseDecSep (cs : List Char) : Option (List Char) :=
  match cs with
  | c :: r => if c = ',' || isJsWs c then some r else none
  | [] => none

/-- Rebuild the text a decimal capture group matched, for the later `parseFloat`. -/
def groupChars (g : DecGroup) : List Char :=
  (match g.sign with | some c => [c] | none => []) ++ g.intPart ++
    (match g.fracPart with | some ds => '.' :: ds | none => [])

/--
The decimal regex of `_parseDecimalNotation`:
`^([-+]?([0-8]?\d(\.\d+)?|90(\.0+)?))[,\s]([-+]?(180(\.0+)?|((1[0-7]\d)|([0-9]?\d))(\.\d+)?))$`,
returning the two captured group texts (latitude first).
-/
def decMatch (cs : List Char) : Option (List Char × List Char) := do
  let (g1, r) ← parseNumGroup cs
  if validLatBody g1.intPart g1.fracPart then
    let r ← parseDecSep r
    let (g2, r2) ← parseNumGroup r
    if validLonBody g2.intPart g2.fracPart then
      if r2 = [] then some (groupChars g1, groupChars g2)
      else none
    else none
  else none

/--
`_parseDecimalNotation`: empty input rejected, the string cleansed and
delimiter-stripped (no second cleanse on this path), the decimal regex
applied, and both groups run through `parseFloat`; the result is the
`[x, y]` = (latitude, longitude) array of the source.
-/
def parseDecimal (s : String) : Option (JsNum × JsNum) :=
  if s = "" then none
  else
    let c := stripDelims (cleanse s.toList)
    match decMatch c with
    | some g => some (parseFloatCore g.1, parseFloatCore g.2)
    | none => none

/-- The Merkator instance state: `lon`/`lat` start as `null`, `rawString` empty. -/
structure Merkator where
  lon : Option JsNum
  lat : Option JsNum
  rawString : String
deriving DecidableEq, Repr

/-- A freshly constructed instance. -/
def Merkator.init : Merkator := ⟨none, none, ""⟩

/--
`_setFromDecimalArray(decimalArr, string)`: stores `decimalArr[0]` as the
latitude and `decimalArr[1]` as the longitude (each through the no-op
`parseFloat` on a number) and records the raw input string.
-/
def setFromDecimalArray (t : JsNum × JsNum) (s : String) (m : Merkator) : Merkator :=
  { m with lat := some t.1, lon := some t.2, rawString := s }

/-- The three possible outcomes of `readString`. -/
inductive ReadResult where
  | emptyString : ReadResult
  | ok : Merkator → ReadResult
  | invalidFormat : ReadResult
deriving DecidableEq, Repr

/--
`readString` parameterised by the two matchers: the empty string returns
`false` immediately, the sexagesimal matcher is consulted first, then the
decimal matcher, and a string matching neither raises the
invalid-coordinate-string error.
-/
def readStringWith (sexa dec : String → Option (JsNum × JsNum))
    (s : String) (m : Merkator) : ReadResult :=
  if s = "" then .emptyString
  else
    match sexa s with
    | some t => .ok (setFromDecimalArray t s m)
    | none =>
      match dec s with
      | some t => .ok (setFromDecimalArray t s m)
      | none => .invalidFormat

/-- `readString` of the source, with its two matchers. -/
def readString (s : String) (m : Merkator) : ReadResult :=
  readStringWith parseSexagesimal parseDecimal s m

/-- `Math.abs(v) > bound` — false whenever `v` is NaN. -/
def jsAbsGt (x : JsNum) (bound : ℚ) : Bool :=
  match x with
  | .nan => false
  | .num q => bound < |q|

/--
`readCoord(x, y)`: the (already `parseFloat`-converted) longitude `x` and
latitude `y` are range-checked with `Math.abs` and stored on success;
`rawString` is not touched.
-/
def readCoord (x y : JsNum) (m : Merkator) : Bool × Merkator :=
  if jsAbsGt y 90 then (false, m)
  else if jsAbsGt x 180 then (false, m)
  else (true, { m with lon := some x, lat := some y })

/-- `getLon()`. -/
def getLon (m : Merkator) : Option JsNum := m.lon

/-- `getLat()`. -/
def getLat (m : Merkator) : Option JsNum := m.lat

/-- The character for the decimal digit `n` (call sites guarantee `n ≤ 9`). -/
def digitCh (n : ℕ) : Char := Char.ofNat (48 + n)

/-- Decimal digits of `n`, most significant first; `fuel` bounds the recursion. -/
def natDigits : ℕ → ℕ → List Char
  | 0, _ => []
  | fuel + 1, n =>
    if n < 10 then [digitCh n]
    else natDigits fuel (n / 10) ++ [digitCh (n % 10)]

/-- JS rendering of a non-negative integer-valued number (no decimal point). -/
def natToStr (n : ℕ) : String := String.mk (natDigits (n + 1) n)

/--
`Number.prototype.toFixed(3)` for a non-negative rational: the nearest
multiple of 1/1000 (ties towards the larger value, per ECMA-262) rendered
with exactly three digits after the decimal point.
-/
def toFixed3 (x : ℚ) : String :=
  let n := (⌊x * 1000 + 1 / 2⌋).toNat
  natToStr (n / 1000) ++ "." ++
    String.mk [digitCh (n / 100 % 10), digitCh (n / 10 % 10), digitCh (n % 10)]

/-- JS `v % 1` for a non-negative `v` (every call site takes `Math.abs` first). -/
def jsMod1 (a : ℚ) : ℚ := a - ⌊a⌋

/--
`Math.abs` applied to a stored coordinate field: `null` coerces to `0`,
NaN stays NaN, a number yields its absolute value.
-/
def jsAbsCoerce : Option JsNum → JsNum
  | none => .num 0
  | some .nan => .nan
  | some (.num q) => .num |q|

/-- The JS comparison `v > 0` on a stored field: false for `null` and NaN. -/
def jsGtZero : Option JsNum → Bool
  | none => false
  | some .nan => false
  | some (.num q) => 0 < q

/--
`convertDecToDms(decimal)`: degrees are the floor of the absolute value,
minutes the floor of the remainder times 60, seconds the remaining fraction
times 60 rendered via `toFixed(3)`.  With NaN stored, every arithmetic step
is NaN and each piece renders as `NaN`.
-/
def convertDecToDms (x : Option JsNum) : String :=
  match jsAbsCoerce x with
  | .nan => "NaN°NaN'NaN\""
  | .num posDegs =>
    let deg := (⌊posDegs⌋).toNat
    let degDecimalX60 := jsMod1 posDegs * 60
    let mins := (⌊degDecimalX60⌋).toNat
    let sec := toFixed3 (jsMod1 degDecimalX60 * 60)
    natToStr deg ++ "°" ++ natToStr mins ++ "'" ++ sec ++ "\""

/--
`toSexagesimal()`: renders both stored fields through `convertDecToDms`
(without any empty-coordinate guard), appends `E`/`W` to the longitude and
`N`/`S` to the latitude by the `> 0` test, and returns latitude first,
space-separated.
-/
def toSexagesimal (m : Merkator) : String :=
  let xDms := convertDecToDms m.lon ++ (if jsGtZero m.lon then "E" else "W")
  let yDms := convertDecToDms m.lat ++ (if jsGtZero m.lat then "N" else "S")
  yDms ++ " " ++ xDms

/-- JS truthiness of a stored coordinate field: `null`, NaN and `0` are falsy. -/
def jsTruthyNum : Option JsNum → Bool
  | none => false
  | some .nan => false
  | some (.num q) => q ≠ 0

/-- Digits of the fractional part `q ∈ [0, 1)`; recursion bounded by `fuel`. -/
def fracDigitsAux : ℕ → ℚ → List Char
  | 0, _ => []
  | fuel + 1, q =>
    if q = 0 then []
    else
      let d := (⌊q * 10⌋).toNat
      digitCh d :: fracDigitsAux fuel (q * 10 - ⌊q * 10⌋)

/--
Default JS number-to-string conversion, idealised: sign, integer part, and
the exact decimal expansion of the fractional part (up to 20 digits).  For
the finite-decimal values stored by this library the shortest round-trip
rendering of the underlying double coincides with the exact expansion.
-/
def jsRenderNum : JsNum → String
  | .nan => "NaN"
  | .num q =>
    let sgn := if q < 0 then "-" else ""
    let a := |q|
    let ip := (⌊a⌋).toNat
    let fr := a - ⌊a⌋
    if fr = 0 then sgn ++ natToStr ip
    else sgn ++ natToStr ip ++ "." ++ String.mk (fracDigitsAux 20 fr)

/-- String coercion of a stored field (`'' + v`); `null` renders as `null`. -/
def jsRender : Option JsNum → String
  | none => "null"
  | some x => jsRenderNum x

/--
`toWkt()`: with a falsy `lon` or `lat` (including a legitimately stored `0`)
the empty-coordinate error path is taken; otherwise the WKT string
`POINT(<lon> <lat>)` is built by string concatenation.
-/
def toWkt (m : Merkator) : Option String :=
  if !jsTruthyNum m.lon || !jsTruthyNum m.lat then none
  else some ("POINT(" ++ jsRender m.lon ++ " " ++ jsRender m.lat ++ ")")

/--
`toDecimal()`: same falsy guard as `toWkt`, then the latitude and longitude
space-separated (latitude first).
-/
def toDecimal (m : Merkator) : Option String :=
  if !jsTruthyNum m.lon || !jsTruthyNum m.lat then none
  else some (jsRender m.lat ++ " " ++ jsRender m.lon)

/-- Modelled from the spec: `decimal = degrees + (minutes + seconds/60) / 60`. -/
def specDmsDecimal (deg mins sec : ℚ) : ℚ := deg + (mins + sec / 60) / 60

/-- Modelled from the spec: `degrees = floor(|v|)`. -/
def dmsDegSpec (v : ℚ) : ℤ := ⌊|v|⌋

/-- Modelled from the spec: `minutes = floor((|v| mod 1) * 60)`. -/
def dmsMinSpec (v : ℚ) : ℤ := ⌊(|v| - ⌊|v|⌋) * 60⌋

/-- Modelled from the spec: `seconds = (((|v| mod 1) * 60) mod 1) * 60`. -/
def dmsSecSpec (v : ℚ) : ℚ :=
  let rm := (|v| - ⌊|v|⌋) * 60
  (rm - ⌊rm⌋) * 60

/-- Wellformedness of an optional fraction group: nonempty and all digits. -/
def FracWF : Option (List Char) → Prop
  | none => True
  | some ds => ds ≠ [] ∧ ∀ c ∈ ds, isDigitCh c = true

/-- Numeric value of an optional fraction group. -/
def fracValOpt : Option (List Char) → ℚ
  | none => 0
  | some ds => fracVal ds

/-- Wellformedness of the captured sexagesimal fields: each field satisfies
the character class of its regex alternation. -/
def SexaFieldsWF (f : SexaFields) : Prop :=
  matchesLatDeg f.latDeg = true ∧ matchesMinSec f.latMin = true ∧
    matchesMinSec f.latSec = true ∧ FracWF f.latFrac ∧
    (f.latCard = 'N' ∨ f.latCard = 'S') ∧
    matchesLonDeg f.lonDeg = true ∧ matchesMinSec f.lonMin = true ∧
    matchesMinSec f.lonSec = true ∧ FracWF f.lonFrac ∧
    (f.lonCard = 'E' ∨ f.lonCard = 'W')

/-- Wellformedness of a captured decimal group. -/
def DecGroupWF (g : DecGroup) : Prop :=
  (g.sign = none ∨ g.sign = some '-' ∨ g.sign = some '+') ∧
    g.intPart ≠ [] ∧ (∀ c ∈ g.intPart, isDigitCh c = true) ∧ FracWF g.fracPart

/-- Number of characters after the last `.` of a rendered string (the count of
decimal digits of a fixed-point rendering). -/
def fracDigitsAfterDot (s : String) : ℕ :=
  (s.toList.reverse.takeWhile (fun c => c ≠ '.')).length

lemma digit_bounds {c : Char} (h : isDigitCh c = true) : 48 ≤ c.toNat ∧ c.toNat ≤ 57 := by
  simpa [isDigitCh, Bool.and_eq_true, decide_eq_true_eq] using h

lemma digit_ne_of_toNat {c d : Char} (h : isDigitCh c = true) (hd : d.toNat < 48 ∨ 57 < d.toNat) :
    c ≠ d := by
  obtain ⟨h1, h2⟩ := digit_bounds h
  intro e
  subst e
  omega

lemma isJsWs_false_of_digit {c : Char} (h : isDigitCh c = true) : isJsWs c = false := by
  obtain ⟨h1, h2⟩ := digit_bounds h
  by_contra hw
  rw [Bool.not_eq_false] at hw
  rcases (by simpa [isJsWs, Bool.or_eq_true, decide_eq_true_eq] using hw) with
    ((((e | e) | e) | e) | e) | e
  · subst e; simp [isDigitCh] at h
  · subst e; simp [isDigitCh] at h
  · subst e; simp [isDigitCh] at h
  · subst e; simp [isDigitCh] at h
  · omega
  · omega

lemma takeDigits_all : ∀ cs : List Char, ∀ c ∈ (takeDigits cs).1, isDigitCh c = true := by
  intro cs
  induction cs with
  | nil => simp [takeDigits]
  | cons c r ih =>
    by_cases hc : isDigitCh c = true
    · simpa [takeDigits, hc] using ih
    · simp [takeDigits, Bool.of_not_eq_true hc]

lemma takeDigits_append (t r : List Char) (ht : ∀ c ∈ t, isDigitCh c = true)
    (hr : ∀ c r', r = c :: r' → isDigitCh c = false) :
    takeDigits (t ++ r) = (t, r) := by
  induction t with
  | nil =>
    cases r with
    | nil => rfl
    | cons c r' => simp [takeDigits, hr c r' rfl]
  | cons c t ih =>
    have hc := ht c (by simp)
    simp only [List.cons_append, takeDigits, hc, if_true, List.append_eq]
    rw [ih (fun d hd => ht d (by simp [hd]))]

lemma natVal_lt (t : List Char) (ht : ∀ c ∈ t, isDigitCh c = true) :
    natVal t < 10 ^ t.length := by
  induction t with
  | nil => simp [natVal]
  | cons c r ih =>
    have hc := digit_bounds (ht c (by simp))
    have hr := ih (fun d hd => ht d (by simp [hd]))
    have h9 : digitValCh c ≤ 9 := by unfold digitValCh; omega
    simp only [natVal, List.length_cons, pow_succ]
    calc digitValCh c * 10 ^ r.length + natVal r
        ≤ 9 * 10 ^ r.length + natVal r := by
          have := Nat.mul_le_mul_right (10 ^ r.length) h9
          omega
      _ < 10 ^ r.length * 10 := by omega

lemma fracVal_nonneg (ds : List Char) : 0 ≤ fracVal ds := by
  unfold fracVal
  positivity

lemma fracVal_lt_one (ds : List Char) (hds : ∀ c ∈ ds, isDigitCh c = true) :
    fracVal ds < 1 := by
  unfold fracVal
  rw [div_lt_one (by positivity)]
  exact_mod_cast natVal_lt ds hds

lemma fracValOpt_nonneg (fp : Option (List Char)) : 0 ≤ fracValOpt fp := by
  cases fp with
  | none => simp [fracValOpt]
  | some ds => simpa [fracValOpt] using fracVal_nonneg ds

lemma fracValOpt_lt_one (fp : Option (List Char)) (h : FracWF fp) : fracValOpt fp < 1 := by
  cases fp with
  | none => norm_num [fracValOpt]
  | some ds => simpa [fracValOpt] using fracVal_lt_one ds h.2

lemma dropWhile_ws_of_digit {c : Char} (r : List Char) (h : isDigitCh c = true) :
    List.dropWhile isJsWs (c :: r) = c :: r := by
  simp [List.dropWhile_cons, isJsWs_false_of_digit h]

lemma parseSign_of_digit {c : Char} (r : List Char) (h : isDigitCh c = true) :
    parseSign (c :: r) = (false, c :: r) := by
  have h1 : c ≠ '-' := digit_ne_of_toNat h (by left; decide)
  have h2 : c ≠ '+' := digit_ne_of_toNat h (by left; decide)
  simp [parseSign, h1, h2]

lemma parseFloatCore_int (t r : List Char) (hne : t ≠ [])
    (ht : ∀ c ∈ t, isDigitCh c = true)
    (hr : ∀ c r', r = c :: r' → isDigitCh c = false ∧ c ≠ '.') :
    parseFloatCore (t ++ r) = .num (natVal t) := by
  obtain ⟨c0, t0, rfl⟩ : ∃ c0 t0, t = c0 :: t0 := by
    cases t with
    | nil => exact absurd rfl hne
    | cons a b => exact ⟨a, b, rfl⟩
  have hc0 := ht c0 (by simp)
  unfold parseFloatCore
  rw [List.cons_append, dropWhile_ws_of_digit _ hc0, parseSign_of_digit _ hc0]
  dsimp only
  rw [← List.cons_append, takeDigits_append _ _ ht (fun c r' e => ((hr c r' e).1))]
  cases r with
  | nil => simp
  | cons c r' =>
    obtain ⟨hcd, hcdot⟩ := hr c r' rfl
    simp [hcdot]

lemma parseFloatCore_frac (t ds : List Char) (hne : t ≠ [])
    (ht : ∀ c ∈ t, isDigitCh c = true) (hds : ∀ c ∈ ds, isDigitCh c = true) :
    parseFloatCore (t ++ '.' :: ds) = .num (natVal t + fracVal ds) := by
  obtain ⟨c0, t0, rfl⟩ : ∃ c0 t0, t = c0 :: t0 := by
    cases t with
    | nil => exact absurd rfl hne
    | cons a b => exact ⟨a, b, rfl⟩
  have hc0 := ht c0 (by simp)
  unfold parseFloatCore
  rw [List.cons_append, dropWhile_ws_of_digit _ hc0, parseSign_of_digit _ hc0]
  dsimp only
  rw [← List.cons_append, takeDigits_append _ _ ht (fun c r' e => by cases e; decide)]
  have hds2 : takeDigits ds = (ds, []) := by
    simpa using takeDigits_append ds [] hds (fun c r' e => by cases e)
  simp [hds2]

lemma isDigitCh_of_range {c : Char} (h1 : 48 ≤ c.toNat) (h2 : c.toNat ≤ 57) :
    isDigitCh c = true := by
  simp only [isDigitCh, Bool.and_eq_true, decide_eq_true_eq]
  omega

lemma natVal_single (c : Char) : natVal [c] = digitValCh c := by
  simp [natVal]

lemma natVal_pair (c1 c2 : Char) : natVal [c1, c2] = 10 * digitValCh c1 + digitValCh c2 := by
  simp [natVal]
  ring

lemma natVal_triple (c1 c2 c3 : Char) :
    natVal [c1, c2, c3] = 100 * digitValCh c1 + 10 * digitValCh c2 + digitValCh c3 := by
  simp [natVal]
  ring

lemma toNat_of_char_eq {c d : Char} (h : c = d) : c.toNat = d.toNat := by rw [h]

lemma matchesLatDeg_spec {t : List Char} (h : matchesLatDeg t = true) :
    (t ≠ [] ∧ ∀ c ∈ t, isDigitCh c = true) ∧ natVal t ≤ 90 := by
  match t with
  | [] => simp [matchesLatDeg] at h
  | [c] =>
    simp only [matchesLatDeg] at h
    have := digit_bounds h
    refine ⟨⟨by simp, by simpa using h⟩, ?_⟩
    rw [natVal_single]
    unfold digitValCh
    omega
  | [c1, c2] =>
    simp only [matchesLatDeg, Bool.or_eq_true, Bool.and_eq_true, decide_eq_true_eq] at h
    rw [natVal_pair]
    have key : (48 ≤ c1.toNat ∧ c1.toNat ≤ 56 ∧ isDigitCh c2 = true) ∨
        (c1.toNat = 57 ∧ c2.toNat = 48) := by
      rcases h with (⟨e, h2⟩ | ⟨⟨r1, r2⟩, h2⟩) | ⟨e1, e2⟩
      · exact Or.inl ⟨by rw [toNat_of_char_eq e]; decide, by rw [toNat_of_char_eq e]; decide, h2⟩
      · exact Or.inl ⟨by omega, by omega, h2⟩
      · exact Or.inr ⟨by rw [toNat_of_char_eq e1]; decide, by rw [toNat_of_char_eq e2]; decide⟩
    rcases key with ⟨r1, r2, h2⟩ | ⟨e1, e2⟩
    · have hc1 := isDigitCh_of_range (c := c1) r1 (by omega)
      have hb2 := digit_bounds h2
      refine ⟨⟨by simp, ?_⟩, by unfold digitValCh; omega⟩
      intro c hc
      simp only [List.mem_cons, List.mem_singleton] at hc
      rcases hc with rfl | rfl | hc
      · exact hc1
      · exact h2
      · simp at hc
    · have hc1 := isDigitCh_of_range (c := c1) (by omega) (by omega)
      have hc2 := isDigitCh_of_range (c := c2) (by omega) (by omega)
      refine ⟨⟨by simp, ?_⟩, by unfold digitValCh; omega⟩
      intro c hc
      simp only [List.mem_cons, List.mem_singleton] at hc
      rcases hc with rfl | rfl | hc
      · exact hc1
      · exact hc2
      · simp at hc
  | c1 :: c2 :: c3 :: r => simp [matchesLatDeg] at h

lemma matchesMinSec_spec {t : List Char} (h : matchesMinSec t = true) :
    (t ≠ [] ∧ ∀ c ∈ t, isDigitCh c = true) ∧ natVal t ≤ 60 := by
  match t with
  | [] => simp [matchesMinSec] at h
  | [c] =>
    simp only [matchesMinSec] at h
    have := digit_bounds h
    refine ⟨⟨by simp, by simpa using h⟩, ?_⟩
    rw [natVal_single]
    unfold digitValCh
    omega
  | [c1, c2] =>
    simp only [matchesMinSec, Bool.or_eq_true, Bool.and_eq_true, decide_eq_true_eq] at h
    rw [natVal_pair]
    have key : (48 ≤ c1.toNat ∧ c1.toNat ≤ 53 ∧ isDigitCh c2 = true) ∨
        (c1.toNat = 54 ∧ c2.toNat = 48) := by
      rcases h with (⟨e, h2⟩ | ⟨⟨r1, r2⟩, h2⟩) | ⟨e1, e2⟩
      · exact Or.inl ⟨by rw [toNat_of_char_eq e]; decide, by rw [toNat_of_char_eq e]; decide, h2⟩
      · exact Or.inl ⟨by omega, by omega, h2⟩
      · exact Or.inr ⟨by rw [toNat_of_char_eq e1]; decide, by rw [toNat_of_char_eq e2]; decide⟩
    rcases key with ⟨r1, r2, h2⟩ | ⟨e1, e2⟩
    · have hc1 := isDigitCh_of_range (c := c1) r1 (by omega)
      have hb2 := digit_bounds h2
      refine ⟨⟨by simp, ?_⟩, by unfold digitValCh; omega⟩
      intro c hc
      simp only [List.mem_cons, List.mem_singleton] at hc
      rcases hc with rfl | rfl | hc
      · exact hc1
      · exact h2
      · simp at hc
    · have hc1 := isDigitCh_of_range (c := c1) (by omega) (by omega)
      have hc2 := isDigitCh_of_range (c := c2) (by omega) (by omega)
      refine ⟨⟨by simp, ?_⟩, by unfold digitValCh; omega⟩
      intro c hc
      simp only [List.mem_cons, List.mem_singleton] at hc
      rcases hc with rfl | rfl | hc
      · exact hc1
      · exact hc2
      · simp at hc
  | c1 :: c2 :: c3 :: r => simp [matchesMinSec] at h

lemma matchesLonDeg_spec {t : List Char} (h : matchesLonDeg t = true) :
    (t ≠ [] ∧ ∀ c ∈ t, isDigitCh c = true) ∧ natVal t ≤ 180 := by
  match t with
  | [] => simp [matchesLonDeg] at h
  | [c] =>
    simp only [matchesLonDeg] at h
    have := digit_bounds h
    refine ⟨⟨by simp, by simpa using h⟩, ?_⟩
    rw [natVal_single]
    unfold digitValCh
    omega
  | [c1, c2] =>
    simp only [matchesLonDeg, Bool.and_eq_true] at h
    obtain ⟨h1, h2⟩ := h
    have hb1 := digit_bounds h1
    have hb2 := digit_bounds h2
    rw [natVal_pair]
    refine ⟨⟨by simp, ?_⟩, by unfold digitValCh; omega⟩
    intro c hc
    simp only [List.mem_cons, List.mem_singleton] at hc
    rcases hc with rfl | rfl | hc
    · exact h1
    · exact h2
    · simp at hc
  | [c1, c2, c3] =>
    simp only [matchesLonDeg, Bool.or_eq_true, Bool.and_eq_true, decide_eq_true_eq] at h
    rw [natVal_triple]
    have key : (c1.toNat = 48 ∧ 48 ≤ c2.toNat ∧ c2.toNat ≤ 57 ∧ isDigitCh c3 = true) ∨
        (c1.toNat = 49 ∧ 48 ≤ c2.toNat ∧ c2.toNat ≤ 55 ∧ isDigitCh c3 = true) ∨
        (c1.toNat = 49 ∧ c2.toNat = 56 ∧ c3.toNat = 48) := by
      rcases h with ((⟨⟨e1, e2⟩, h3⟩ | ⟨⟨⟨e1, r1⟩, r2⟩, h3⟩) | ⟨⟨⟨e1, r1⟩, r2⟩, h3⟩) |
        ⟨⟨e1, e2⟩, e3⟩
      · exact Or.inl ⟨by rw [toNat_of_char_eq e1]; decide, by rw [toNat_of_char_eq e2]; decide,
          by rw [toNat_of_char_eq e2]; decide, h3⟩
      · exact Or.inl ⟨by rw [toNat_of_char_eq e1]; decide, by omega, by omega, h3⟩
      · exact Or.inr (Or.inl ⟨by rw [toNat_of_char_eq e1]; decide, by omega, by omega, h3⟩)
      · exact Or.inr (Or.inr ⟨by rw [toNat_of_char_eq e1]; decide,
          by rw [toNat_of_char_eq e2]; decide, by rw [toNat_of_char_eq e3]; decide⟩)
    have digits : isDigitCh c1 = true ∧ isDigitCh c2 = true ∧ isDigitCh c3 = true := by
      rcases key with ⟨e1, r1, r2, h3⟩ | ⟨e1, r1, r2, h3⟩ | ⟨e1, e2, e3⟩
      · exact ⟨isDigitCh_of_range (by omega) (by omega),
          isDigitCh_of_range (by omega) (by omega), h3⟩
      · exact ⟨isDigitCh_of_range (by omega) (by omega),
          isDigitCh_of_range (by omega) (by omega), h3⟩
      · exact ⟨isDigitCh_of_range (by omega) (by omega),
          isDigitCh_of_range (by omega) (by omega),
          isDigitCh_of_range (by omega) (by omega)⟩
    refine ⟨⟨by simp, ?_⟩, ?_⟩
    · intro c hc
      simp only [List.mem_cons, List.mem_singleton] at hc
      rcases hc with rfl | rfl | rfl | hc
      · exact digits.1
      · exact digits.2.1
      · exact digits.2.2
      · simp at hc
    · have hb3 := digit_bounds digits.2.2
      rcases key with ⟨e1, r1, r2, h3⟩ | ⟨e1, r1, r2, h3⟩ | ⟨e1, e2, e3⟩ <;>
        unfold digitValCh <;> omega
  | c1 :: c2 :: c3 :: c4 :: r => simp [matchesLonDeg] at h

lemma parseField_some {v : List Char → Bool} {cs : List Char} {t r : List Char}
    (h : parseField v cs = some (t, r)) : v t = true := by
  simp only [parseField] at h
  split at h
  · simp only [Option.some.injEq, Prod.mk.injEq] at h
    obtain ⟨h1, h2⟩ := h
    subst h1
    assumption
  · exact absurd h (by simp)

lemma parseCard_some {a b : Char} {cs : List Char} {c : Char} {r : List Char}
    (h : parseCard a b cs = some (c, r)) : c = a ∨ c = b := by
  match cs with
  | [] => simp [parseCard] at h
  | c0 :: r0 =>
    simp only [parseCard] at h
    split at h
    · simp only [Option.some.injEq, Prod.mk.injEq] at h
      obtain ⟨h1, h2⟩ := h
      subst h1
      simpa [Bool.or_eq_true, decide_eq_true_eq] using ‹(c0 = a || c0 = b) = true›
    · exact absurd h (by simp)

lemma isEmpty_false_ne_nil {α : Type} {l : List α} (h : l.isEmpty = false) : l ≠ [] := by
  cases l with
  | nil => simp [List.isEmpty] at h
  | cons a r => simp

lemma parseFrac_wf (cs : List Char) : FracWF (parseFrac cs).1 := by
  match cs with
  | [] => simp [parseFrac, FracWF]
  | c :: r =>
    simp only [parseFrac]
    split
    · by_cases he : (takeDigits r).1.isEmpty
      · simp [he, FracWF]
      · rw [Bool.not_eq_true] at he
        simp only [he, Bool.false_eq_true, if_false]
        exact ⟨isEmpty_false_ne_nil he, takeDigits_all r⟩
    · simp [FracWF]

lemma sexaSuffixed_wf {cs : List Char} {f : SexaFields} (h : sexaSuffixed cs = some f) :
    SexaFieldsWF f := by
  simp only [sexaSuffixed, Option.bind_eq_some, bind] at h
  obtain ⟨⟨latDeg, r1⟩, hLatDeg, h⟩ := h
  obtain ⟨r2, hSep1, h⟩ := h
  obtain ⟨⟨latMin, r3⟩, hLatMin, h⟩ := h
  obtain ⟨r4, hSep2, h⟩ := h
  obtain ⟨⟨latSec, r5⟩, hLatSec, h⟩ := h
  obtain ⟨⟨latCard, r6⟩, hLatCard, h⟩ := h
  obtain ⟨r7, hWs, h⟩ := h
  obtain ⟨⟨lonDeg, r8⟩, hLonDeg, h⟩ := h
  obtain ⟨r9, hSep3, h⟩ := h
  obtain ⟨⟨lonMin, r10⟩, hLonMin, h⟩ := h
  obtain ⟨r11, hSep4, h⟩ := h
  obtain ⟨⟨lonSec, r12⟩, hLonSec, h⟩ := h
  obtain ⟨⟨lonCard, r13⟩, hLonCard, h⟩ := h
  split at h
  · simp only [Option.some.injEq] at h
    subst h
    exact ⟨parseField_some hLatDeg, parseField_some hLatMin, parseField_some hLatSec,
      parseFrac_wf r5, parseCard_some hLatCard, parseField_some hLonDeg,
      parseField_some hLonMin, parseField_some hLonSec, parseFrac_wf r12,
      parseCard_some hLonCard⟩
  · exact absurd h (by simp)

lemma sexaLeading_wf {cs : List Char} {f : SexaFields} (h : sexaLeading cs = some f) :
    SexaFieldsWF f := by
  simp only [sexaLeading, Option.bind_eq_some, bind] at h
  obtain ⟨⟨latCard, r1⟩, hLatCard, h⟩ := h
  obtain ⟨⟨latDeg, r2⟩, hLatDeg, h⟩ := h
  obtain ⟨r3, hSep1, h⟩ := h
  obtain ⟨⟨latMin, r4⟩, hLatMin, h⟩ := h
  obtain ⟨r5, hSep2, h⟩ := h
  obtain ⟨⟨latSec, r6⟩, hLatSec, h⟩ := h
  obtain ⟨⟨lonCard, r7⟩, hLonCard, h⟩ := h
  obtain ⟨⟨lonDeg, r8⟩, hLonDeg, h⟩ := h
  obtain ⟨r9, hSep3, h⟩ := h
  obtain ⟨⟨lonMin, r10⟩, hLonMin, h⟩ := h
  obtain ⟨r11, hSep4, h⟩ := h
  obtain ⟨⟨lonSec, r12⟩, hLonSec, h⟩ := h
  split at h
  · simp only [Option.some.injEq] at h
    subst h
    exact ⟨parseField_some hLatDeg, parseField_some hLatMin, parseField_some hLatSec,
      parseFrac_wf r6, parseCard_some hLatCard, parseField_some hLonDeg,
      parseField_some hLonMin, parseField_some hLonSec, parseFrac_wf r12,
      parseCard_some hLonCard⟩
  · exact absurd h (by simp)

lemma sexaMatch_wf {s : String} {f : SexaFields} (h : sexaMatch s = some f) :
    SexaFieldsWF f := by
  unfold sexaMatch at h
  split at h
  · exact absurd h (by simp)
  · dsimp only at h
    split at h
    · rename_i f' hf'
      simp only [Option.some.injEq] at h
      subst h
      exact sexaSuffixed_wf hf'
    · exact sexaLeading_wf h

lemma parseFloatCore_tok (t : List Char) (hne : t ≠ [])
    (ht : ∀ c ∈ t, isDigitCh c = true) : parseFloatCore t = .num (natVal t) := by
  have := parseFloatCore_int t [] hne ht (fun c r' e => by cases e)
  simpa using this

lemma parseFloatCore_sec (t : List Char) (hne : t ≠ [])
    (ht : ∀ c ∈ t, isDigitCh c = true) (fp : Option (List Char)) (hfp : FracWF fp) :
    parseFloatCore (t ++ fracRep fp) = .num (natVal t + fracValOpt fp) := by
  cases fp with
  | none =>
    rw [show fracRep none = 'u' :: "ndefined".toList from rfl]
    rw [parseFloatCore_int t _ hne ht (fun c r' e => by cases e; exact ⟨by decide, by decide⟩)]
    simp [fracValOpt]
  | some ds =>
    rw [show fracRep (some ds) = '.' :: ds from rfl]
    rw [parseFloatCore_frac t ds hne ht hfp.2]
    simp [fracValOpt]

lemma toDecimals_eq {d m s : List Char} {dv mv sv : ℚ}
    (hd : parseFloatCore d = .num dv) (hm : parseFloatCore m = .num mv)
    (hs : parseFloatCore s = .num sv) :
    toDecimals d m s = .num (specDmsDecimal dv mv sv) := by
  unfold toDecimals
  rw [hd, hm, hs]
  simp [jsAdd, jsDiv60, specDmsDecimal]

lemma specDmsDecimal_nonneg {dv mv sv : ℚ} (h1 : 0 ≤ dv) (h2 : 0 ≤ mv) (h3 : 0 ≤ sv) :
    0 ≤ specDmsDecimal dv mv sv := by
  unfold specDmsDecimal
  positivity

lemma specDmsDecimal_lt {dv mv sv bd : ℚ} (h1 : dv ≤ bd) (h2 : mv ≤ 60) (h3 : sv < 61) :
    specDmsDecimal dv mv sv < bd + 61 / 60 + 61 / 3600 := by
  unfold specDmsDecimal
  have e : dv + (mv + sv / 60) / 60 = dv + mv * (1 / 60) + sv * (1 / 3600) := by ring
  rw [e]
  nlinarith

lemma jsNegStr_of_nonneg {q : ℚ} (h : 0 ≤ q) : jsNegStr (.num q) = .num (-q) := by
  simp [jsNegStr, not_lt.2 h]

/-- Values and bounds of the two components produced by `sexaToPair` on
wellformed fields. -/
lemma sexaToPair_spec (f : SexaFields) (wf : SexaFieldsWF f) :
    ∃ dv mv sv dv2 mv2 sv2 : ℚ,
      parseFloatCore f.latDeg = .num dv ∧ parseFloatCore f.latMin = .num mv ∧
      parseFloatCore (f.latSec ++ fracRep f.latFrac) = .num sv ∧
      parseFloatCore f.lonDeg = .num dv2 ∧ parseFloatCore f.lonMin = .num mv2 ∧
      parseFloatCore (f.lonSec ++ fracRep f.lonFrac) = .num sv2 ∧
      0 ≤ dv ∧ dv ≤ 90 ∧ 0 ≤ mv ∧ mv ≤ 60 ∧ 0 ≤ sv ∧ sv < 61 ∧
      0 ≤ dv2 ∧ dv2 ≤ 180 ∧ 0 ≤ mv2 ∧ mv2 ≤ 60 ∧ 0 ≤ sv2 ∧ sv2 < 61 ∧
      (sexaToPair f).1 = .num ((if f.latCard = 'S' then -1 else 1) * specDmsDecimal dv mv sv) ∧
      (sexaToPair f).2 = .num ((if f.lonCard = 'W' then -1 else 1) * specDmsDecimal dv2 mv2 sv2) := by
  obtain ⟨hLatDeg, hLatMin, hLatSec, hLatFrac, hLatCard, hLonDeg, hLonMin, hLonSec,
    hLonFrac, hLonCard⟩ := wf
  obtain ⟨⟨hne1, hd1⟩, hb1⟩ := matchesLatDeg_spec hLatDeg
  obtain ⟨⟨hne2, hd2⟩, hb2⟩ := matchesMinSec_spec hLatMin
  obtain ⟨⟨hne3, hd3⟩, hb3⟩ := matchesMinSec_spec hLatSec
  obtain ⟨⟨hne4, hd4⟩, hb4⟩ := matchesLonDeg_spec hLonDeg
  obtain ⟨⟨hne5, hd5⟩, hb5⟩ := matchesMinSec_spec hLonMin
  obtain ⟨⟨hne6, hd6⟩, hb6⟩ := matchesMinSec_spec hLonSec
  refine ⟨natVal f.latDeg, natVal f.latMin, natVal f.latSec + fracValOpt f.latFrac,
    natVal f.lonDeg, natVal f.lonMin, natVal f.lonSec + fracValOpt f.lonFrac,
    parseFloatCore_tok _ hne1 hd1, parseFloatCore_tok _ hne2 hd2,
    parseFloatCore_sec _ hne3 hd3 _ hLatFrac,
    parseFloatCore_tok _ hne4 hd4, parseFloatCore_tok _ hne5 hd5,
    parseFloatCore_sec _ hne6 hd6 _ hLonFrac,
    by positivity, by exact_mod_cast hb1, by positivity, by exact_mod_cast hb2,
    add_nonneg (by positivity) (fracValOpt_nonneg _), ?_,
    by positivity, by exact_mod_cast hb4, by positivity, by exact_mod_cast hb5,
    add_nonneg (by positivity) (fracValOpt_nonneg _), ?_, ?_, ?_⟩
  · have h60 : (natVal f.latSec : ℚ) ≤ 60 := by exact_mod_cast hb3
    have := fracValOpt_lt_one f.latFrac hLatFrac
    linarith
  · have h60 : (natVal f.lonSec : ℚ) ≤ 60 := by exact_mod_cast hb6
    have := fracValOpt_lt_one f.lonFrac hLonFrac
    linarith
  · unfold sexaToPair
    rw [toDecimals_eq (parseFloatCore_tok _ hne1 hd1) (parseFloatCore_tok _ hne2 hd2)
      (parseFloatCore_sec _ hne3 hd3 _ hLatFrac)]
    have hq : 0 ≤ specDmsDecimal (natVal f.latDeg)
        (natVal f.latMin) (natVal f.latSec + fracValOpt f.latFrac) :=
      specDmsDecimal_nonneg (by positivity) (by positivity)
        (add_nonneg (by positivity) (fracValOpt_nonneg _))
    by_cases hS : f.latCard = 'S'
    · simp only [hS, if_true, if_pos rfl]
      rw [jsNegStr_of_nonneg hq]
      norm_num
    · simp [hS]
  · unfold sexaToPair
    rw [toDecimals_eq (parseFloatCore_tok _ hne4 hd4) (parseFloatCore_tok _ hne5 hd5)
      (parseFloatCore_sec _ hne6 hd6 _ hLonFrac)]
    have hq : 0 ≤ specDmsDecimal (natVal f.lonDeg)
        (natVal f.lonMin) (natVal f.lonSec + fracValOpt f.lonFrac) :=
      specDmsDecimal_nonneg (by positivity) (by positivity)
        (add_nonneg (by positivity) (fracValOpt_nonneg _))
    by_cases hW : f.lonCard = 'W'
    · simp only [hW, if_true, if_pos rfl]
      rw [jsNegStr_of_nonneg hq]
      norm_num
    · simp [hW]

lemma parseNumGroup_wf {cs : List Char} {g : DecGroup} {r : List Char}
    (h : parseNumGroup cs = some (g, r)) : DecGroupWF g := by
  simp only [parseNumGroup] at h
  split at h
  · exact absurd h (by simp)
  · rename_i he
    simp only [Option.some.injEq, Prod.mk.injEq] at h
    obtain ⟨hg, hr⟩ := h
    subst hg
    rw [Bool.not_eq_true] at he
    refine ⟨?_, isEmpty_false_ne_nil he, takeDigits_all _, parseFrac_wf _⟩
    match cs with
    | [] => exact Or.inl rfl
    | c :: r0 =>
      dsimp only
      split
      · rename_i hc
        rcases (by simpa [Bool.or_eq_true, decide_eq_true_eq] using hc : c = '-' ∨ c = '+') with
          rfl | rfl
        · exact Or.inr (Or.inl rfl)
        · exact Or.inr (Or.inr rfl)
      · exact Or.inl rfl

lemma parseFloatCore_sign_int (c : Char) (hc : c = '-' ∨ c = '+') (t r : List Char)
    (hne : t ≠ []) (ht : ∀ d ∈ t, isDigitCh d = true)
    (hr : ∀ d r', r = d :: r' → isDigitCh d = false ∧ d ≠ '.') :
    parseFloatCore (c :: (t ++ r)) = .num ((if c = '-' then -1 else 1) * natVal t) := by
  obtain ⟨c0, t0, rfl⟩ : ∃ c0 t0, t = c0 :: t0 := by
    cases t with
    | nil => exact absurd rfl hne
    | cons a b => exact ⟨a, b, rfl⟩
  have hws : isJsWs c = false := by rcases hc with rfl | rfl <;> decide
  have hsgn : parseSign (c :: (c0 :: t0 ++ r)) = ((c = '-' : Bool), c0 :: t0 ++ r) := by
    rcases hc with rfl | rfl <;> simp [parseSign]
  unfold parseFloatCore
  rw [List.dropWhile_cons, hws, if_neg (by simp), hsgn]
  dsimp only
  rw [takeDigits_append _ _ ht (fun d r' e => ((hr d r' e).1))]
  cases r with
  | nil => rcases hc with rfl | rfl <;> simp
  | cons d r' =>
    obtain ⟨hdd, hddot⟩ := hr d r' rfl
    rcases hc with rfl | rfl <;> simp [hddot]

lemma parseFloatCore_sign_frac (c : Char) (hc : c = '-' ∨ c = '+') (t ds : List Char)
    (hne : t ≠ []) (ht : ∀ d ∈ t, isDigitCh d = true)
    (hds : ∀ d ∈ ds, isDigitCh d = true) :
    parseFloatCore (c :: (t ++ '.' :: ds)) =
      .num ((if c = '-' then -1 else 1) * (natVal t + fracVal ds)) := by
  obtain ⟨c0, t0, rfl⟩ : ∃ c0 t0, t = c0 :: t0 := by
    cases t with
    | nil => exact absurd rfl hne
    | cons a b => exact ⟨a, b, rfl⟩
  have hws : isJsWs c = false := by rcases hc with rfl | rfl <;> decide
  have hsgn : parseSign (c :: (c0 :: t0 ++ '.' :: ds)) =
      ((c = '-' : Bool), c0 :: t0 ++ '.' :: ds) := by
    rcases hc with rfl | rfl <;> simp [parseSign]
  unfold parseFloatCore
  rw [List.dropWhile_cons, hws, if_neg (by simp), hsgn]
  dsimp only
  rw [takeDigits_append _ _ ht (fun d r' e => by cases e; decide)]
  have hds2 : takeDigits ds = (ds, []) := by
    simpa using takeDigits_append ds [] hds (fun d r' e => by cases e)
  rcases hc with rfl | rfl <;> simp [hds2]

lemma parseFloatCore_group {g : DecGroup} (wf : DecGroupWF g) :
    parseFloatCore (groupChars g) =
      .num ((if g.sign = some '-' then -1 else 1) * (natVal g.intPart + fracValOpt g.fracPart)) := by
  obtain ⟨hs, hne, hd, hf⟩ := wf
  have hvac : ∀ (d : Char) (r' : List Char), ([] : List Char) = d :: r' →
      isDigitCh d = false ∧ d ≠ '.' := fun d r' e => by cases e
  rcases hs with hs | hs | hs
  · rw [hs]
    unfold groupChars
    rw [hs]
    cases hfp : g.fracPart with
    | none =>
      simp only [List.nil_append, List.append_nil]
      rw [parseFloatCore_tok _ hne hd]
      simp [fracValOpt]
    | some ds =>
      rw [hfp] at hf
      simp only [List.nil_append]
      rw [parseFloatCore_frac _ _ hne hd hf.2]
      simp [fracValOpt]
  · rw [hs]
    unfold groupChars
    rw [hs]
    cases hfp : g.fracPart with
    | none =>
      have key := parseFloatCore_sign_int '-' (Or.inl rfl) g.intPart [] hne hd hvac
      simp only [List.append_nil] at key
      simp only [List.append_nil, List.cons_append, List.nil_append]
      rw [key]
      simp [fracValOpt]
    | some ds =>
      rw [hfp] at hf
      have key := parseFloatCore_sign_frac '-' (Or.inl rfl) g.intPart ds hne hd hf.2
      simp only [List.cons_append, List.nil_append, List.append_assoc]
      rw [key]
      simp [fracValOpt]
  · rw [hs]
    unfold groupChars
    rw [hs]
    cases hfp : g.fracPart with
    | none =>
      have key := parseFloatCore_sign_int '+' (Or.inr rfl) g.intPart [] hne hd hvac
      simp only [List.append_nil] at key
      simp only [List.append_nil, List.cons_append, List.nil_append]
      rw [key]
      simp [fracValOpt]
    | some ds =>
      rw [hfp] at hf
      have key := parseFloatCore_sign_frac '+' (Or.inr rfl) g.intPart ds hne hd hf.2
      simp only [List.cons_append, List.nil_append, List.append_assoc]
      rw [key]
      simp [fracValOpt]

lemma natVal_zeros {ds : List Char} (h : ∀ c ∈ ds, c = '0') : natVal ds = 0 := by
  induction ds with
  | nil => rfl
  | cons c r ih =>
    have hc := h c (by simp)
    subst hc
    simp only [natVal]
    rw [ih (fun d hd => h d (by simp [hd]))]
    have : digitValCh '0' = 0 := by decide
    simp [this]

lemma fracAllZero_val {fp : Option (List Char)} (h : fracAllZero fp = true) :
    fracValOpt fp = 0 := by
  cases fp with
  | none => rfl
  | some ds =>
    simp only [fracAllZero, List.all_eq_true, decide_eq_true_eq] at h
    simp [fracValOpt, fracVal, natVal_zeros h]

lemma validLatBody_le {ip : List Char} {fp : Option (List Char)} (hfp : FracWF fp)
    (h : validLatBody ip fp = true) : (natVal ip : ℚ) + fracValOpt fp ≤ 90 := by
  simp only [validLatBody, Bool.or_eq_true, Bool.and_eq_true, decide_eq_true_eq] at h
  rcases h with h | ⟨h90, hz⟩
  · have hval : natVal ip ≤ 89 := by
      cases ip with
      | nil => simp at h
      | cons c1 tl =>
        cases tl with
        | nil =>
          have hb := digit_bounds (by simpa using h)
          rw [natVal_single]
          unfold digitValCh
          omega
        | cons c2 tl2 =>
          cases tl2 with
          | nil =>
            simp only [Bool.and_eq_true, decide_eq_true_eq] at h
            obtain ⟨⟨r1, r2⟩, h2⟩ := h
            have hb := digit_bounds h2
            rw [natVal_pair]
            unfold digitValCh
            omega
          | cons c3 tl3 => simp at h
    have hfrac := fracValOpt_lt_one fp hfp
    have hcast : (natVal ip : ℚ) ≤ 89 := by exact_mod_cast hval
    linarith
  · subst h90
    rw [fracAllZero_val hz]
    norm_num
    decide

lemma validLonBody_le {ip : List Char} {fp : Option (List Char)} (hfp : FracWF fp)
    (h : validLonBody ip fp = true) : (natVal ip : ℚ) + fracValOpt fp ≤ 180 := by
  simp only [validLonBody, Bool.or_eq_true, Bool.and_eq_true, decide_eq_true_eq] at h
  rcases h with h | ⟨h180, hz⟩
  · have hval : natVal ip ≤ 179 := by
      cases ip with
      | nil => simp at h
      | cons c1 tl =>
        cases tl with
        | nil =>
          have hb := digit_bounds (by simpa using h)
          rw [natVal_single]
          unfold digitValCh
          omega
        | cons c2 tl2 =>
          cases tl2 with
          | nil =>
            simp only [Bool.and_eq_true] at h
            obtain ⟨h1, h2⟩ := h
            have hb1 := digit_bounds h1
            have hb2 := digit_bounds h2
            rw [natVal_pair]
            unfold digitValCh
            omega
          | cons c3 tl3 =>
            cases tl3 with
            | nil =>
              simp only [Bool.and_eq_true, decide_eq_true_eq] at h
              obtain ⟨⟨⟨e1, r1⟩, r2⟩, h3⟩ := h
              have he1 : c1.toNat = 49 := by rw [toNat_of_char_eq e1]; decide
              have hb3 := digit_bounds h3
              rw [natVal_triple]
              unfold digitValCh
              omega
            | cons c4 tl4 => simp at h
    have hfrac := fracValOpt_lt_one fp hfp
    have hcast : (natVal ip : ℚ) ≤ 179 := by exact_mod_cast hval
    linarith
  · subst h180
    rw [fracAllZero_val hz]
    norm_num
    decide

lemma decMatch_inv {cs : List Char} {g1 g2 : List Char}
    (h : decMatch cs = some (g1, g2)) :
    ∃ ga gb : DecGroup, g1 = groupChars ga ∧ g2 = groupChars gb ∧
      DecGroupWF ga ∧ DecGroupWF gb ∧
      validLatBody ga.intPart ga.fracPart = true ∧
      validLonBody gb.intPart gb.fracPart = true := by
  simp only [decMatch, Option.bind_eq_some, bind] at h
  obtain ⟨⟨ga, r⟩, hga, h⟩ := h
  split at h
  · rename_i hvalidA
    simp only [Option.bind_eq_some] at h
    obtain ⟨r2, hsep, h⟩ := h
    obtain ⟨⟨gb, r3⟩, hgb, h⟩ := h
    split at h
    · rename_i hvalidB
      split at h
      · simp only [Option.some.injEq, Prod.mk.injEq] at h
        obtain ⟨h1, h2⟩ := h
        exact ⟨ga, gb, h1.symm, h2.symm, parseNumGroup_wf hga, parseNumGroup_wf hgb,
          hvalidA, hvalidB⟩
      · exact absurd h (by simp)
    · exact absurd h (by simp)
  · exact absurd h (by simp)

lemma abs_sign_mul {q : ℚ} (b : Bool) (hq : 0 ≤ q) :
    |(if b then (-1 : ℚ) else 1) * q| = q := by
  cases b <;> simp [abs_of_nonneg hq]

lemma parseDecimal_bounds {s : String} {y x : JsNum}
    (h : parseDecimal s = some (y, x)) :
    ∃ qy qx : ℚ, y = .num qy ∧ x = .num qx ∧ |qy| ≤ 90 ∧ |qx| ≤ 180 := by
  unfold parseDecimal at h
  split at h
  · exact absurd h (by simp)
  · dsimp only at h
    split at h
    · rename_i g hg
      obtain ⟨ga, gb, e1, e2, wfa, wfb, hva, hvb⟩ := decMatch_inv hg
      simp only [Option.some.injEq, Prod.mk.injEq] at h
      obtain ⟨hy, hx⟩ := h
      subst hy
      subst hx
      rw [e1, e2, parseFloatCore_group wfa, parseFloatCore_group wfb]
      refine ⟨_, _, rfl, rfl, ?_, ?_⟩
      · have hb := validLatBody_le wfa.2.2.2 hva
        have hnn : 0 ≤ (natVal ga.intPart : ℚ) + fracValOpt ga.fracPart :=
          add_nonneg (by positivity) (fracValOpt_nonneg _)
        rcases hsa : (ga.sign = some '-' : Bool) with _ | _
        · rw [if_neg (of_decide_eq_false hsa), one_mul, abs_of_nonneg hnn]
          exact hb
        · rw [if_pos (of_decide_eq_true hsa), neg_one_mul, abs_neg, abs_of_nonneg hnn]
          exact hb
      · have hb := validLonBody_le wfb.2.2.2 hvb
        have hnn : 0 ≤ (natVal gb.intPart : ℚ) + fracValOpt gb.fracPart :=
          add_nonneg (by positivity) (fracValOpt_nonneg _)
        rcases hsb : (gb.sign = some '-' : Bool) with _ | _
        · rw [if_neg (of_decide_eq_false hsb), one_mul, abs_of_nonneg hnn]
          exact hb
        · rw [if_pos (of_decide_eq_true hsb), neg_one_mul, abs_neg, abs_of_nonneg hnn]
          exact hb
    · exact absurd h (by simp)

lemma parseSexagesimal_inv {s : String} {y x : JsNum}
    (h : parseSexagesimal s = some (y, x)) :
    ∃ f : SexaFields, sexaMatch s = some f ∧ sexaToPair f = (y, x) := by
  unfold parseSexagesimal at h
  split at h
  · rename_i f hf
    simp only [Option.some.injEq] at h
    exact ⟨f, hf, h⟩
  · exact absurd h (by simp)

lemma parseSexagesimal_bounds {s : String} {y x : JsNum}
    (h : parseSexagesimal s = some (y, x)) :
    ∃ qy qx : ℚ, y = .num qy ∧ x = .num qx ∧ |qy| < 92 ∧ |qx| < 182 := by
  obtain ⟨f, hf, hp⟩ := parseSexagesimal_inv h
  have wf := sexaMatch_wf hf
  obtain ⟨dv, mv, sv, dv2, mv2, sv2, _, _, _, _, _, _, hdv0, hdv90, hmv0, hmv60,
    hsv0, hsv61, hdv20, hdv2180, hmv20, hmv260, hsv20, hsv261, hy, hx⟩ :=
    sexaToPair_spec f wf
  rw [hp] at hy hx
  refine ⟨(if f.latCard = 'S' then -1 else 1) * specDmsDecimal dv mv sv,
    (if f.lonCard = 'W' then -1 else 1) * specDmsDecimal dv2 mv2 sv2, hy, hx, ?_, ?_⟩
  · have hnn := specDmsDecimal_nonneg hdv0 hmv0 hsv0
    have hlt := specDmsDecimal_lt hdv90 hmv60 hsv61
    have : |(if f.latCard = 'S' then (-1 : ℚ) else 1) * specDmsDecimal dv mv sv| =
        specDmsDecimal dv mv sv := by
      split <;> simp [abs_of_nonneg hnn]
    rw [this]
    linarith
  · have hnn := specDmsDecimal_nonneg hdv20 hmv20 hsv20
    have hlt := specDmsDecimal_lt hdv2180 hmv260 hsv261
    have : |(if f.lonCard = 'W' then (-1 : ℚ) else 1) * specDmsDecimal dv2 mv2 sv2| =
        specDmsDecimal dv2 mv2 sv2 := by
      split <;> simp [abs_of_nonneg hnn]
    rw [this]
    linarith

lemma setFromDecimalArray_eq (t : JsNum × JsNum) (s : String) (m : Merkator) :
    setFromDecimalArray t s m = ⟨some t.2, some t.1, s⟩ := rfl

lemma readString_ok_inv {s : String} {m m' : Merkator} (h : readString s m = .ok m') :
    ∃ t : JsNum × JsNum,
      (parseSexagesimal s = some t ∨
        (parseSexagesimal s = none ∧ parseDecimal s = some t)) ∧
      m' = ⟨some t.2, some t.1, s⟩ := by
  unfold readString readStringWith at h
  split at h
  · exact absurd h (by simp)
  · split at h
    · rename_i t ht
      simp only [ReadResult.ok.injEq] at h
      exact ⟨t, Or.inl ht, by rw [← h, setFromDecimalArray_eq]⟩
    · rename_i hn
      split at h
      · rename_i t ht
        simp only [ReadResult.ok.injEq] at h
        exact ⟨t, Or.inr ⟨hn, ht⟩, by rw [← h, setFromDecimalArray_eq]⟩
      · exact absurd h (by simp)

lemma readCoord_true_inv {x y : JsNum} {m m' : Merkator}
    (h : readCoord x y m = (true, m')) :
    jsAbsGt y 90 = false ∧ jsAbsGt x 180 = false ∧
      m'.lon = some x ∧ m'.lat = some y := by
  unfold readCoord at h
  split at h
  · exact absurd h (by simp)
  · split at h
    · exact absurd h (by simp)
    · rename_i h1 h2
      simp only [Prod.mk.injEq] at h
      exact ⟨Bool.of_not_eq_true h1, Bool.of_not_eq_true h2,
        by rw [← h.2], by rw [← h.2]⟩

lemma parseSexagesimal_empty : parseSexagesimal "" = none := by
  unfold parseSexagesimal sexaMatch
  simp

lemma digitCh_isDigit {m : ℕ} (h : m < 10) : isDigitCh (digitCh m) = true := by
  interval_cases m <;> decide

lemma digitCh_ne_dot {m : ℕ} (h : m < 10) : digitCh m ≠ '.' := by
  interval_cases m <;> decide

lemma natDigits_digits (fuel n : ℕ) : ∀ c ∈ natDigits fuel n, isDigitCh c = true := by
  induction fuel generalizing n with
  | zero => simp [natDigits]
  | succ fuel ih =>
    intro c hc
    simp only [natDigits] at hc
    split at hc
    · rename_i hn
      simp only [List.mem_singleton] at hc
      subst hc
      exact digitCh_isDigit hn
    · rw [List.mem_append] at hc
      rcases hc with hc | hc
      · exact ih _ c hc
      · simp only [List.mem_singleton] at hc
        subst hc
        exact digitCh_isDigit (Nat.mod_lt _ (by norm_num))

lemma toFixed3_toList (x : ℚ) :
    (toFixed3 x).toList =
      ((natToStr ((⌊x * 1000 + 1 / 2⌋).toNat / 1000)).toList ++ ['.']) ++
        [digitCh ((⌊x * 1000 + 1 / 2⌋).toNat / 100 % 10),
          digitCh ((⌊x * 1000 + 1 / 2⌋).toNat / 10 % 10),
          digitCh ((⌊x * 1000 + 1 / 2⌋).toNat % 10)] := rfl

lemma fracDigitsAfterDot_toFixed3 (x : ℚ) : fracDigitsAfterDot (toFixed3 x) = 3 := by
  unfold fracDigitsAfterDot
  rw [toFixed3_toList]
  set n := (⌊x * 1000 + 1 / 2⌋).toNat with hn
  have h1 : digitCh (n / 100 % 10) ≠ '.' := digitCh_ne_dot (Nat.mod_lt _ (by norm_num))
  have h2 : digitCh (n / 10 % 10) ≠ '.' := digitCh_ne_dot (Nat.mod_lt _ (by norm_num))
  have h3 : digitCh (n % 10) ≠ '.' := digitCh_ne_dot (Nat.mod_lt _ (by norm_num))
  simp [List.takeWhile, h1, h2, h3]

lemma dash_not_mem_toFixed3 (x : ℚ) : '-' ∉ (toFixed3 x).toList := by
  rw [toFixed3_toList]
  set n := (⌊x * 1000 + 1 / 2⌋).toNat with hn
  intro hm
  simp only [List.mem_append, List.mem_cons, List.mem_singleton,
    List.not_mem_nil, or_false] at hm
  have hstr : ∀ c ∈ (natToStr (n / 1000)).toList, isDigitCh c = true :=
    natDigits_digits (n / 1000 + 1) (n / 1000)
  rcases hm with (hm | hm) | hm | hm | hm
  · exact absurd (hstr '-' hm) (by decide)
  · exact absurd hm (by decide)
  · have hd := digitCh_isDigit (m := n / 100 % 10) (Nat.mod_lt _ (by norm_num))
    rw [← hm] at hd
    exact absurd hd (by decide)
  · have hd := digitCh_isDigit (m := n / 10 % 10) (Nat.mod_lt _ (by norm_num))
    rw [← hm] at hd
    exact absurd hd (by decide)
  · have hd := digitCh_isDigit (m := n % 10) (Nat.mod_lt _ (by norm_num))
    rw [← hm] at hd
    exact absurd hd (by decide)

/-- C1: for every input string matched by the sexagesimal grammar, the stored decimal
value equals `degrees + (minutes + seconds/60) / 60` computed from the matched
non-negative fields, with the sign negated afterwards exactly when the latitude
hemisphere letter is `S` (for latitude) or the longitude hemisphere letter is `W`
(for longitude); in particular parsing "45:34:21 N 120:47:23 E" stores latitude
18229/400 = 45.5725 and longitude 434843/3600 ≈ 120.78972. -/
theorem c1_sexagesimal_conversion :
    (∀ (s : String) (y x : JsNum), parseSexagesimal s = some (y, x) →
      ∃ (f : SexaFields) (dv mv sv dv2 mv2 sv2 : ℚ),
        sexaMatch s = some f ∧
        parseFloatCore f.latDeg = .num dv ∧
        parseFloatCore f.latMin = .num mv ∧
        parseFloatCore (f.latSec ++ fracRep f.latFrac) = .num sv ∧
        parseFloatCore f.lonDeg = .num dv2 ∧
        parseFloatCore f.lonMin = .num mv2 ∧
        parseFloatCore (f.lonSec ++ fracRep f.lonFrac) = .num sv2 ∧
        0 ≤ dv ∧ 0 ≤ mv ∧ 0 ≤ sv ∧ 0 ≤ dv2 ∧ 0 ≤ mv2 ∧ 0 ≤ sv2 ∧
        y = .num ((if f.latCard = 'S' then -1 else 1) * specDmsDecimal dv mv sv) ∧
        x = .num ((if f.lonCard = 'W' then -1 else 1) * specDmsDecimal dv2 mv2 sv2) ∧
        (∀ m : Merkator, readString s m = .ok ⟨some x, some y, s⟩)) ∧
    readString "45:34:21 N 120:47:23 E" Merkator.init =
      .ok ⟨some (.num (434843 / 3600)), some (.num (18229 / 400)),
        "45:34:21 N 120:47:23 E"⟩ := by
  constructor
  · intro s y x h
    obtain ⟨f, hf, hp⟩ := parseSexagesimal_inv h
    have wf := sexaMatch_wf hf
    obtain ⟨dv, mv, sv, dv2, mv2, sv2, e1, e2, e3, e4, e5, e6, n1, _, n2, _, n3, _,
      n4, _, n5, _, n6, _, hy, hx⟩ := sexaToPair_spec f wf
    rw [hp] at hy hx
    refine ⟨f, dv, mv, sv, dv2, mv2, sv2, hf, e1, e2, e3, e4, e5, e6,
      n1, n2, n3, n4, n5, n6, hy, hx, ?_⟩
    intro m
    have hsne : s ≠ "" := by
      intro e
      rw [e, parseSexagesimal_empty] at h
      cases h
    unfold readString readStringWith
    rw [if_neg hsne, h]
    rfl
  · with_unfolding_all rfl

/-- Witness for C1: the universal statement applied to the concrete matched input
"45:34:21 N 120:47:23 E". -/
theorem c1_sexagesimal_conversion_witness :
    ∃ (f : SexaFields) (dv mv sv dv2 mv2 sv2 : ℚ),
      sexaMatch "45:34:21 N 120:47:23 E" = some f ∧
      parseFloatCore f.latDeg = .num dv ∧
      parseFloatCore f.latMin = .num mv ∧
      parseFloatCore (f.latSec ++ fracRep f.latFrac) = .num sv ∧
      parseFloatCore f.lonDeg = .num dv2 ∧
      parseFloatCore f.lonMin = .num mv2 ∧
      parseFloatCore (f.lonSec ++ fracRep f.lonFrac) = .num sv2 ∧
      0 ≤ dv ∧ 0 ≤ mv ∧ 0 ≤ sv ∧ 0 ≤ dv2 ∧ 0 ≤ mv2 ∧ 0 ≤ sv2 ∧
      (.num (18229 / 400) : JsNum) =
        .num ((if f.latCard = 'S' then -1 else 1) * specDmsDecimal dv mv sv) ∧
      (.num (434843 / 3600) : JsNum) =
        .num ((if f.lonCard = 'W' then -1 else 1) * specDmsDecimal dv2 mv2 sv2) ∧
      (∀ m : Merkator, readString "45:34:21 N 120:47:23 E" m =
        .ok ⟨some (.num (434843 / 3600)), some (.num (18229 / 400)),
          "45:34:21 N 120:47:23 E"⟩) :=
  c1_sexagesimal_conversion.1 "45:34:21 N 120:47:23 E"
    (.num (18229 / 400)) (.num (434843 / 3600)) (by with_unfolding_all rfl)

/-- C2: for every numeric pair, `readCoord` fails exactly when `|lat| > 90` or
`|lon| > 180`; the bounds are inclusive, so `readCoord(180, 90)` and
`readCoord(-180, -90)` succeed while `readCoord(180.0001, 0)` fails. -/
theorem c2_read_coord_range :
    (∀ (x y : ℚ) (m : Merkator),
      (readCoord (.num x) (.num y) m).1 = false ↔ (90 < |y| ∨ 180 < |x|)) ∧
    (readCoord (.num 180) (.num 90) Merkator.init).1 = true ∧
    (readCoord (.num (-180)) (.num (-90)) Merkator.init).1 = true ∧
    (readCoord (.num (1800001 / 10000)) (.num 0) Merkator.init).1 = false := by
  refine ⟨?_, by with_unfolding_all rfl, by with_unfolding_all rfl,
    by with_unfolding_all rfl⟩
  intro x y m
  unfold readCoord
  by_cases h1 : (90 : ℚ) < |y|
  · simp [jsAbsGt, h1]
  · by_cases h2 : (180 : ℚ) < |x|
    · simp [jsAbsGt, h1, h2]
    · simp [jsAbsGt, h1, h2]

/-- C3 counterexample: the sexagesimal string "90:30:00 N 000:00:00 E" parses
successfully, yet it stores latitude 181/2 = 90.5, violating `|latitude| ≤ 90`. -/
theorem c3_counterexample_sexagesimal_overflow :
    readString "90:30:00 N 000:00:00 E" Merkator.init =
      .ok ⟨some (.num 0), some (.num (181 / 2)), "90:30:00 N 000:00:00 E"⟩ ∧
    ¬ |(181 : ℚ) / 2| ≤ 90 := by
  constructor
  · with_unfolding_all rfl
  · rw [abs_of_nonneg (by norm_num)]
    norm_num

/-- C3 amended: the numeric entry point `readCoord` does enforce `|lat| ≤ 90` and
`|lon| ≤ 180` on everything it stores, and decimal string parses stay within those
bounds, but a sexagesimal parse only bounds the individual fields (degrees ≤ 90/180,
minutes and seconds ≤ 60), so any stored parse result is only guaranteed to satisfy
`|lat| < 92` and `|lon| < 182`. -/
theorem c3_stored_bounds :
    (∀ (x y : ℚ) (m m' : Merkator), readCoord (.num x) (.num y) m = (true, m') →
      m'.lon = some (.num x) ∧ m'.lat = some (.num y) ∧ |x| ≤ 180 ∧ |y| ≤ 90) ∧
    (∀ (s : String) (y x : JsNum), parseDecimal s = some (y, x) →
      ∃ qy qx : ℚ, y = .num qy ∧ x = .num qx ∧ |qy| ≤ 90 ∧ |qx| ≤ 180) ∧
    (∀ (s : String) (m m' : Merkator), readString s m = .ok m' →
      ∃ qx qy : ℚ, m'.lon = some (.num qx) ∧ m'.lat = some (.num qy) ∧
        |qx| < 182 ∧ |qy| < 92) := by
  refine ⟨?_, ?_, ?_⟩
  · intro x y m m' h
    obtain ⟨hy, hx, hlon, hlat⟩ := readCoord_true_inv h
    refine ⟨hlon, hlat, ?_, ?_⟩
    · simpa [jsAbsGt, not_lt] using hx
    · simpa [jsAbsGt, not_lt] using hy
  · intro s y x h
    exact parseDecimal_bounds h
  · intro s m m' h
    obtain ⟨⟨y, x⟩, hcase, hm'⟩ := readString_ok_inv h
    rcases hcase with hsexa | ⟨hnone, hdec⟩
    · obtain ⟨qy, qx, ey, ex, by_, bx⟩ := parseSexagesimal_bounds hsexa
      subst hm'
      exact ⟨qx, qy, by rw [ex], by rw [ey], bx, by_⟩
    · obtain ⟨qy, qx, ey, ex, by_, bx⟩ := parseDecimal_bounds hdec
      subst hm'
      exact ⟨qx, qy, by rw [ex], by rw [ey], by linarith, by linarith⟩

/-- Witness for the C3 amended statement: the numeric read of (170, 80) stores the
pair and both bounds hold. -/
theorem c3_stored_bounds_witness :
    (readCoord (.num 170) (.num 80) Merkator.init).2.lon = some (.num 170) ∧
      (readCoord (.num 170) (.num 80) Merkator.init).2.lat = some (.num 80) ∧
      |(170 : ℚ)| ≤ 180 ∧ |(80 : ℚ)| ≤ 90 :=
  c3_stored_bounds.1 170 80 Merkator.init
    (readCoord (.num 170) (.num 80) Merkator.init).2 (by with_unfolding_all rfl)

/-- C4: every in-range pair is accepted by `readCoord` and read back unchanged by
`getLon`/`getLat`. -/
theorem c4_read_coord_roundtrip :
    ∀ (x y : ℚ) (m : Merkator), |x| ≤ 180 → |y| ≤ 90 →
      (readCoord (.num x) (.num y) m).1 = true ∧
      getLon (readCoord (.num x) (.num y) m).2 = some (.num x) ∧
      getLat (readCoord (.num x) (.num y) m).2 = some (.num y) := by
  intro x y m hx hy
  unfold readCoord getLon getLat
  simp [jsAbsGt, not_lt.2 hx, not_lt.2 hy]

/-- Witness for C4 at the pair (10, 20). -/
theorem c4_read_coord_roundtrip_witness :
    (readCoord (.num 10) (.num 20) Merkator.init).1 = true ∧
      getLon (readCoord (.num 10) (.num 20) Merkator.init).2 = some (.num 10) ∧
      getLat (readCoord (.num 10) (.num 20) Merkator.init).2 = some (.num 20) :=
  c4_read_coord_roundtrip 10 20 Merkator.init (by norm_num) (by norm_num)

/-- C5: `readString` on the empty string fails immediately for any matchers (the
matchers are not consulted); on a non-empty string the sexagesimal matcher is tried
first and its match is stored with the original input recorded as the raw string;
only if it fails is the decimal matcher tried; if both fail the result is the
invalid-format error. -/
theorem c5_read_string_dispatch :
    (∀ (sexa dec : String → Option (JsNum × JsNum)) (m : Merkator),
      readStringWith sexa dec "" m = .emptyString) ∧
    (∀ (s : String) (m : Merkator) (t : JsNum × JsNum),
      parseSexagesimal s = some t → s ≠ "" →
      readString s m = .ok (setFromDecimalArray t s m) ∧
      (setFromDecimalArray t s m).rawString = s) ∧
    (∀ (s : String) (m : Merkator) (t : JsNum × JsNum),
      s ≠ "" → parseSexagesimal s = none → parseDecimal s = some t →
      readString s m = .ok (setFromDecimalArray t s m) ∧
      (setFromDecimalArray t s m).rawString = s) ∧
    (∀ (s : String) (m : Merkator),
      s ≠ "" → parseSexagesimal s = none → parseDecimal s = none →
      readString s m = .invalidFormat) := by
  refine ⟨?_, ?_, ?_, ?_⟩
  · intro sexa dec m
    unfold readStringWith
    rw [if_pos rfl]
  · intro s m t ht hs
    unfold readString readStringWith
    rw [if_neg hs, ht]
    exact ⟨rfl, rfl⟩
  · intro s m t hs hn ht
    unfold readString readStringWith
    rw [if_neg hs, hn, ht]
    exact ⟨rfl, rfl⟩
  · intro s m hs hn hd
    unfold readString readStringWith
    rw [if_neg hs, hn, hd]

/-- Witness for C5: "not a coordinate" is non-empty, matches neither grammar, and
`readString` reports the invalid-format error on it. -/
theorem c5_read_string_dispatch_witness :
    readString "not a coordinate" Merkator.init = .invalidFormat :=
  c5_read_string_dispatch.2.2.2 "not a coordinate" Merkator.init (by decide)
    (by with_unfolding_all rfl) (by with_unfolding_all rfl)

/-- C6: for every stored decimal value the DMS display renders
`degrees = floor(|v|)`, `minutes = floor((|v| mod 1) * 60)` and
`seconds = (((|v| mod 1) * 60) mod 1) * 60` with exactly 3 decimal digits and never
negative, and `toSexagesimal` appends `N`/`E` when the value is `> 0` and `S`/`W`
otherwise, latitude part first. -/
theorem c6_dms_display : ∀ q : ℚ,
    convertDecToDms (some (.num q)) =
      natToStr (dmsDegSpec q).toNat ++ "°" ++ natToStr (dmsMinSpec q).toNat ++ "'" ++
        toFixed3 (dmsSecSpec q) ++ "\"" ∧
    0 ≤ dmsSecSpec q ∧ dmsSecSpec q < 60 ∧
    fracDigitsAfterDot (toFixed3 (dmsSecSpec q)) = 3 ∧
    '-' ∉ (toFixed3 (dmsSecSpec q)).toList ∧
    (∀ (lon lat : Option JsNum) (r : String),
      toSexagesimal ⟨lon, lat, r⟩ =
        (convertDecToDms lat ++ (if jsGtZero lat then "N" else "S")) ++ " " ++
          (convertDecToDms lon ++ (if jsGtZero lon then "E" else "W"))) := by
  intro q
  have hfr : dmsSecSpec q =
      Int.fract ((|q| - ⌊|q|⌋) * 60) * 60 := rfl
  refine ⟨?_, ?_, ?_, fracDigitsAfterDot_toFixed3 _, dash_not_mem_toFixed3 _, ?_⟩
  · simp only [convertDecToDms, jsAbsCoerce, jsMod1, dmsDegSpec, dmsMinSpec, dmsSecSpec]
  · rw [hfr]
    exact mul_nonneg (Int.fract_nonneg _) (by norm_num)
  · rw [hfr]
    have := Int.fract_lt_one ((|q| - ⌊|q|⌋) * 60)
    linarith
  · intro lon lat r
    rfl

/-- C7: a stored value of exactly 0 is a legal coordinate, yet after
`readCoord(0, 45)` succeeds (longitude 0 stored), both `toWkt` and `toDecimal`
take the empty-coordinate error path because the truthiness guard treats the
stored 0 as unset. -/
theorem c7_zero_store_then_empty_error :
    (readCoord (.num 0) (.num 45) Merkator.init).1 = true ∧
    toWkt (readCoord (.num 0) (.num 45) Merkator.init).2 = none ∧
    toDecimal (readCoord (.num 0) (.num 45) Merkator.init).2 = none := by
  refine ⟨?_, ?_, ?_⟩ <;> with_unfolding_all rfl

/-- C8 counterexample: `readCoord(120, 0)` stores a coordinate (latitude 0), but
`toWkt` then returns the error value instead of "POINT(120 0)". -/
theorem c8_counterexample_zero_latitude :
    (readCoord (.num 120) (.num 0) Merkator.init).1 = true ∧
    toWkt (readCoord (.num 120) (.num 0) Merkator.init).2 = none ∧
    toWkt (readCoord (.num 120) (.num 0) Merkator.init).2 ≠ some "POINT(120 0)" := by
  refine ⟨by with_unfolding_all rfl, by with_unfolding_all rfl, ?_⟩
  rw [show toWkt (readCoord (.num 120) (.num 0) Merkator.init).2 = none from
    by with_unfolding_all rfl]
  simp

/-- C8 amended: for every stored coordinate whose longitude and latitude are both
nonzero (truthy) numbers, `toWkt` returns exactly
`"POINT(" ++ lon ++ " " ++ lat ++ ")"` — longitude first, one space, no spaces
around the parentheses, default number rendering; in particular after parsing
"34.45456 -101.21354" it returns "POINT(-101.21354 34.45456)". -/
theorem c8_wkt_format :
    (∀ (x y : ℚ) (r : String), x ≠ 0 → y ≠ 0 →
      toWkt ⟨some (.num x), some (.num y), r⟩ =
        some ("POINT(" ++ jsRenderNum (.num x) ++ " " ++ jsRenderNum (.num y) ++ ")")) ∧
    readString "34.45456 -101.21354" Merkator.init =
      .ok ⟨some (.num (-(10121354 / 100000))), some (.num (3445456 / 100000)),
        "34.45456 -101.21354"⟩ ∧
    toWkt ⟨some (.num (-(10121354 / 100000))), some (.num (3445456 / 100000)),
      "34.45456 -101.21354"⟩ = some "POINT(-101.21354 34.45456)" := by
  refine ⟨?_, by with_unfolding_all rfl, by with_unfolding_all rfl⟩
  intro x y r hx hy
  unfold toWkt jsTruthyNum jsRender
  rw [if_neg]
  simp [hx, hy]

/-- Witness for the C8 amended statement at the stored pair (1, 2). -/
theorem c8_wkt_format_witness :
    toWkt ⟨some (.num 1), some (.num 2), ""⟩ =
      some ("POINT(" ++ jsRenderNum (.num 1) ++ " " ++ jsRenderNum (.num 2) ++ ")") :=
  c8_wkt_format.1 1 2 "" one_ne_zero two_ne_zero

/-- C9 counterexample: with no coordinate stored, `toSexagesimal` does not report an
empty-coordinate error — it renders the null fields as zero DMS values with the
`S`/`W` suffixes and returns that formatted string. -/
theorem c9_counterexample_unset_formats :
    toSexagesimal Merkator.init = "0°0'0.000\"S 0°0'0.000\"W" := by
  with_unfolding_all rfl

/-- C9 amended: `toSexagesimal` always formats the latitude DMS+hemisphere first,
then a space, then the longitude DMS+hemisphere; it never fails: when nothing is
stored the null fields are rendered as 0°0'0.000" with `S` and `W` suffixes instead
of an empty-coordinate error. -/
theorem c9_sexagesimal_order :
    ∀ m : Merkator,
      toSexagesimal m =
        (convertDecToDms m.lat ++ (if jsGtZero m.lat then "N" else "S")) ++ " " ++
          (convertDecToDms m.lon ++ (if jsGtZero m.lon then "E" else "W")) := by
  intro m
  rfl

/-- C10: an argument whose `parseFloat` is NaN passes both magnitude checks
(`|NaN| > 90` and `|NaN| > 180` are both false), so `readCoord` reports success and
stores NaN as the coordinate value. -/
theorem c10_nan_accepted :
    jsAbsGt .nan 90 = false ∧ jsAbsGt .nan 180 = false ∧
    (readCoord .nan .nan Merkator.init).1 = true ∧
    (readCoord .nan .nan Merkator.init).2.lon = some .nan ∧
    (readCoord .nan .nan Merkator.init).2.lat = some .nan :=
  ⟨rfl, rfl, rfl, rfl, rfl⟩

/-- Witness for C2: the range characterisation applied to the concrete pair
(200, 0), an out-of-range longitude. -/
theorem c2_read_coord_range_witness :
    (readCoord (.num 200) (.num 0) Merkator.init).1 = false ↔
      (90 < |(0 : ℚ)| ∨ 180 < |(200 : ℚ)|) :=
  c2_read_coord_range.1 200 0 Merkator.init

/-- Witness for C6 at the stored value 453/10 = 45.3. -/
theorem c6_dms_display_witness :
    0 ≤ dmsSecSpec (453 / 10) ∧ dmsSecSpec (453 / 10) < 60 :=
  ⟨(c6_dms_display (453 / 10)).2.1, (c6_dms_display (453 / 10)).2.2.1⟩

/-- Witness for the C9 amended statement on the freshly constructed instance. -/
theorem c9_sexagesimal_order_witness :
    toSexagesimal Merkator.init =
      (convertDecToDms Merkator.init.lat ++
        (if jsGtZero Merkator.init.lat then "N" else "S")) ++ " " ++
        (convertDecToDms Merkator.init.lon ++
          (if jsGtZero Merkator.init.lon then "E" else "W")) :=
  c9_sexagesimal_order Merkator.init
